import Mathlib

/-!
# Verification of the ultrapool worker pool (maurice2k/ultrapool)

A shallow embedding of `ultrapool.go` into Lean 4, together with theorems
settling the specification claims about it.

Modelling conventions:

* Go `time.Time` / `time.Duration` values are modelled as `Int` (e.g.
  nanoseconds); `now.Sub(t) < d` becomes `now - t < d` over `Int`.
* Go's machine `int` is modelled as a mathematical `Int`, with the 64-bit
  two's-complement wrap-around made explicit (`wrap64`) exactly where the
  source increments a counter that can overflow, and Go's
  truncated-towards-zero `%` modelled by `Int.tmod`.
* Channels: a `workerInstance.taskChan` carries `interface{}` values where
  the Go `nil` is the shutdown sentinel; a channel value is `Option Nat`
  (`none` = Go `nil`).  A worker's sequential reception history is a
  `List GoTask`; closing the channel is recorded in the `chanClosed` flag.
* The lock-free fast slots (`shard.idleWorker1`, `wp.idleWorker1`) are
  atomic single-pointer slots.  In the sequential (quiescent, atomic-step)
  model every CAS whose precondition holds succeeds, so a slot is just an
  `Option Worker`.
* `sync.Pool` (the recycling worker allocator) may always fall back to its
  `New` function, so a `Get` on the spawn path is modelled as producing a
  fresh worker with a caller-supplied identifier.
* Goroutine spawns (`go wp.cleanup()`) are modelled by counting them
  (`cleanupCount`), since the claims only concern which background tasks
  exist after `Start`.
-/

namespace Ultrapool

/-- A Go `interface{}` task value travelling on a `taskChan`:
`none` is the Go `nil` (the shutdown sentinel), `some v` a real task. -/
abbrev GoTask := Option Nat

/-- Embedding of `workerInstance` (ultrapool.go lines 43-49).  The
channel itself is modelled separately (`runWorker`); `chanClosed` records
`close(taskChan)` having been called.  `id` distinguishes workers. -/
structure Worker where
  id : Nat
  lastUsed : Int
  isDeleted : Bool
  chanClosed : Bool
deriving DecidableEq

/-- Embedding of `poolShard` (ultrapool.go lines 51-62): the lock-free
fast slot `idleWorker1` (fast_a), the locked fast slot `idleWorker2`
(fast_b), the locked overflow list `idleWorkerList`, and the `stopped`
flag.  The spin lock itself disappears in the atomic-step model. -/
structure ShardState where
  idleWorker1 : Option Worker
  idleWorker2 : Option Worker
  idleWorkerList : List Worker
  stopped : Bool
deriving DecidableEq

/-- A freshly allocated shard, as built by `Start` (lines 114-120). -/
def initShard : ShardState :=
  { idleWorker1 := none, idleWorker2 := none, idleWorkerList := [], stopped := false }

/-- Embedding of `WorkerPool` (ultrapool.go lines 26-41).  `idleWorker1`
is the pool-wide fast slot; `cleanupCount` counts the `go wp.cleanup()`
background tasks spawned so far. -/
structure PoolState where
  idleWorkerLifetime : Int
  numShards : Int
  shards : List ShardState
  acquireCounter : Int
  started : Bool
  stopped : Bool
  idleWorker1 : Option Worker
  cleanupCount : Nat
deriving DecidableEq

/-- `maxShards` constant (ultrapool.go line 65). -/
def maxShards : Int := 128

/-- `defaultIdleWorkerLifetime` (line 64): one second, in nanoseconds. -/
def defaultIdleWorkerLifetime : Int := 1000000000

/-- `SetNumShards` (ultrapool.go lines 88-98): clamp the argument into
`[1, maxShards]` and store it. -/
def setNumShards (wp : PoolState) (numShards : Int) : PoolState :=
  let n1 := if numShards ≤ 1 then 1 else numShards
  let n2 := if n1 > maxShards then maxShards else n1
  { wp with numShards := n2 }

/-- `NewWorkerPool` (ultrapool.go lines 68-85): fresh pool, then
`SetNumShards(runtime.GOMAXPROCS(0))`; `gomaxprocs` is that value. -/
def newWorkerPool (gomaxprocs : Int) : PoolState :=
  setNumShards
    { idleWorkerLifetime := defaultIdleWorkerLifetime
      numShards := 1
      shards := []
      acquireCounter := -1
      started := false
      stopped := false
      idleWorker1 := none
      cleanupCount := 0 }
    gomaxprocs

/-- `Start` (ultrapool.go lines 111-127): under the pool lock, if not yet
started append `numShards` fresh shards and set `started`; then — outside
the guard — spawn a `cleanup` background task unconditionally. -/
def startPool (wp : PoolState) : PoolState :=
  let wp1 :=
    if wp.started = false then
      { wp with
          shards := wp.shards ++ List.replicate wp.numShards.toNat initShard
          started := true }
    else wp
  { wp1 with cleanupCount := wp1.cleanupCount + 1 }

/-- 64-bit two's-complement wrap-around of a Go `int`. -/
def wrap64 (z : Int) : Int := (z + 2 ^ 63) % 2 ^ 64 - 2 ^ 63

/-- A worker freshly produced by the allocator's `New` function
(ultrapool.go lines 74-80): zero-valued apart from its channel. -/
def freshWorker (id : Nat) : Worker :=
  { id := id, lastUsed := 0, isDeleted := false, chanClosed := false }

/-- The locked portion of `poolShard.getWorker` (ultrapool.go lines
187-210): take `idleWorker2` if present; else pop the list tail, moving
the new tail into `idleWorker2` when the list held at least two workers.
Returns the worker (if any) and the updated shard. -/
def getWorkerLocked (shard : ShardState) : Option Worker × ShardState :=
  match shard.idleWorker2 with
  | some w => (some w, { shard with idleWorker2 := none })
  | none =>
    let l := shard.idleWorkerList
    let iws := l.length
    if iws > 1 then
      (l[iws - 1]?,
       { shard with idleWorker2 := l[iws - 2]?, idleWorkerList := l.take (iws - 2) })
    else if iws > 0 then
      (l[iws - 1]?, { shard with idleWorkerList := l.take (iws - 1) })
    else
      (none, shard)

/-- Result of `poolShard.getWorker`: the worker handed to the caller (the
Go named return `worker *workerInstance`, `none` = nil), the updated
shard, the updated pool-wide fast slot, and whether a new worker
execution context was spawned. -/
structure GetWorkerOut where
  worker : Option Worker
  shard : ShardState
  globalSlot : Option Worker
  spawned : Bool
deriving DecidableEq

/-- `poolShard.getWorker` (ultrapool.go lines 176-217), sequential model.
Try the shard fast slot, then the pool-wide fast slot (successful CAS =
slot emptied), then the locked path, and finally spawn a worker from the
allocator (`freshId` names the allocated worker).  Note the source never
consults `shard.stopped` here and never returns nil. -/
def getWorker (shard : ShardState) (globalSlot : Option Worker) (freshId : Nat) :
    GetWorkerOut :=
  match shard.idleWorker1 with
  | some w =>
    { worker := some w, shard := { shard with idleWorker1 := none }
      globalSlot := globalSlot, spawned := false }
  | none =>
    match globalSlot with
    | some w =>
      { worker := some w, shard := shard, globalSlot := none, spawned := false }
    | none =>
      match getWorkerLocked shard with
      | (some w, shard') =>
        { worker := some w, shard := shard', globalSlot := none, spawned := false }
      | (none, shard') =>
        { worker := some (freshWorker freshId), shard := shard'
          globalSlot := none, spawned := true }

/-- Result of `poolShard.setWorkerIdle`: the Go named return `ret bool`,
the updated shard and the updated pool-wide fast slot. -/
structure SetIdleOut where
  ret : Bool
  shard : ShardState
  globalSlot : Option Worker
deriving DecidableEq

/-- `poolShard.setWorkerIdle` (ultrapool.go lines 241-265), sequential
model at time `now`.  Stamp `lastUsed`, then try the shard fast slot and
the pool-wide fast slot (no `stopped` check on either!); otherwise, under
the lock, park the worker in `idleWorker2` or append it to the idle list
unless the shard is stopped, in which case return `false`. -/
def setWorkerIdle (shard : ShardState) (globalSlot : Option Worker)
    (worker : Worker) (now : Int) : SetIdleOut :=
  let w := { worker with lastUsed := now }
  if shard.idleWorker1 = none then
    { ret := true, shard := { shard with idleWorker1 := some w }, globalSlot := globalSlot }
  else if globalSlot = none then
    { ret := true, shard := shard, globalSlot := some w }
  else if shard.stopped = false then
    if shard.idleWorker2 = none then
      { ret := true, shard := { shard with idleWorker2 := some w }, globalSlot := globalSlot }
    else
      { ret := true
        shard := { shard with idleWorkerList := shard.idleWorkerList ++ [w] }
        globalSlot := globalSlot }
  else
    { ret := false, shard := shard, globalSlot := globalSlot }

/-- The per-worker body of `Stop`'s drain loop (ultrapool.go lines
144-149): mark the worker deleted and close its channel, unless it was
already deleted. -/
def markDeleted (w : Worker) : Worker :=
  if w.isDeleted = false then { w with isDeleted := true, chanClosed := true } else w

/-- The per-shard body of `Stop` (ultrapool.go lines 141-150): under the
shard lock, set `stopped` and drain the idle list.  The fast slots
`idleWorker1`/`idleWorker2` are not touched by the source. -/
def stopShard (shard : ShardState) : ShardState :=
  { shard with stopped := true, idleWorkerList := shard.idleWorkerList.map markDeleted }

/-- `Stop` (ultrapool.go lines 131-155): no-op when not started;
otherwise stop every shard (first call only) and set the pool `stopped`
flag. -/
def stopPool (wp : PoolState) : PoolState :=
  if wp.started = false then wp
  else if wp.stopped = false then
    { wp with shards := wp.shards.map stopShard, stopped := true }
  else
    { wp with stopped := true }

/-- Outcome of `AddTask` (ultrapool.go lines 158-173).  `ok` carries the
updated pool, the value sent on the acquired worker's channel, and that
worker; `panicOOB` models the Go runtime panic when `wp.shards[idx]` is
indexed out of bounds. -/
inductive AddTaskResult where
  | ok (wp : PoolState) (sent : GoTask) (worker : Worker)
  | errNotStarted
  | errStopped
  | panicOOB (idx : Int)
deriving DecidableEq

/-- `AddTask` (ultrapool.go lines 158-173): reject when not started;
increment `acquireCounter` (a Go `int`, hence `wrap64`), select the shard
at `acquireCounter % numShards` (Go's truncated `%` = `Int.tmod`), get a
worker from it, and send the task.  `freshId` names the worker allocated
if the shard spawns one. -/
def addTask (wp : PoolState) (task : GoTask) (freshId : Nat) : AddTaskResult :=
  if wp.started = false then .errNotStarted
  else
    let counter := wrap64 (wp.acquireCounter + 1)
    let idx := Int.tmod counter wp.numShards
    if hidx : 0 ≤ idx ∧ idx.toNat < wp.shards.length then
      let shard := wp.shards.get ⟨idx.toNat, hidx.2⟩
      let out := getWorker shard wp.idleWorker1 freshId
      match out.worker with
      | none => .errStopped
      | some w =>
        .ok
          { wp with
              acquireCounter := counter
              shards := wp.shards.set idx.toNat out.shard
              idleWorker1 := out.globalSlot }
          task w
    else
      .panicOOB idx

/-- The worker loop of `workerInstance.run` (ultrapool.go lines 225-234)
as a function of the sequence of values received on `taskChan`, in the
regime where every `setWorkerIdle` succeeds (non-stopped shard; see
`setWorkerIdle`): returns, in order, the values passed to
`wp.handlerFunc`.  A received Go `nil` (`none`) breaks the loop before
the handler is called. -/
def runWorker : List GoTask → List Nat
  | [] => []
  | none :: _ => []
  | some v :: rest => v :: runWorker rest

/-- The reaper's freshness test at index `i` of an idle list
(`now.Sub(idleWorkerList[i].lastUsed) < wp.idleWorkerLifetime`,
ultrapool.go lines 288 and 299).  Out-of-range indices never occur in the
source; they are mapped to `false` (treated as not fresh). -/
def freshAt (now lifetime : Int) (l : List Worker) (i : Nat) : Bool :=
  match l[i]? with
  | some w => decide (now - w.lastUsed < lifetime)
  | none => false

/-- The bisection loop of `cleanup` (ultrapool.go lines 288-290):
`for s > 0 && fresh(list[s]) { s = s / 2 }`. -/
def bisect (now lifetime : Int) (l : List Worker) (s : Nat) : Nat :=
  if h : 0 < s ∧ freshAt now lifetime l s = true then
    bisect now lifetime l (s / 2)
  else s
termination_by s
decreasing_by exact Nat.div_lt_self h.1 (by omega)

/-- One reaper pass over a single shard: the locked body of `cleanup`
(ultrapool.go lines 280-316).  Returns the `toBeCleaned` buffer (the
retired workers) and the updated shard.  Faithful to the source,
including the confirmation loop `for j = s; j < iws; j++` whose `break`
condition reads `idleWorkerList[s]` — the index `s`, fixed, not `j` —
so the loop ends at `j = s` when `list[s]` is fresh and at `j = iws`
otherwise. -/
def cleanupShardPass (now lifetime : Int) (shard : ShardState) :
    List Worker × ShardState :=
  let l := shard.idleWorkerList
  let iws := l.length
  let s := if iws > 400 then bisect now lifetime l ((iws - 1) / 2) else 0
  if iws > 400 ∧ s = 0 then ([], shard)
  else
    let j := if freshAt now lifetime l s then s else iws
    if j = 0 then ([], shard)
    else (l.take j, { shard with idleWorkerList := l.drop j })

/-- The retirement step of `cleanup` (ultrapool.go lines 318-323): each
retired worker whose shard is not stopped receives the shutdown sentinel
(`taskChan <- nil`); returns the workers that are actually sent the
sentinel. -/
def sentinelTargets (shardStopped : Bool) (toBeCleaned : List Worker) : List Worker :=
  if shardStopped then [] else toBeCleaned

/-- `Start` modulo background tasks: the pool state with the reaper-task
count erased, used to state in what sense `Start` is idempotent. -/
def poolCore (wp : PoolState) : PoolState := { wp with cleanupCount := 0 }

/-- The atomic operations that touch a single shard (and the pool-wide
fast slot), for the quiescent-observation model of one shard's history:
a worker release at time `t` (`setWorkerIdle`), a worker acquisition
(`getWorker`), a reaper pass at time `now` (`cleanupShardPass`), and the
shard's part of `Stop` (`stopShard`). -/
inductive PoolEvent where
  | release (w : Worker) (t : Int)
  | acquireEv (freshId : Nat)
  | reapEv (now : Int)
  | stopEv
deriving DecidableEq

/-- One atomic step of a shard's history (the pool-wide fast slot is the
second component). -/
def stepEvent (lifetime : Int) (s : ShardState × Option Worker) (e : PoolEvent) :
    ShardState × Option Worker :=
  match e with
  | .release w t =>
    let out := setWorkerIdle s.1 s.2 w t
    (out.shard, out.globalSlot)
  | .acquireEv freshId =>
    let out := getWorker s.1 s.2 freshId
    (out.shard, out.globalSlot)
  | .reapEv now => ((cleanupShardPass now lifetime s.1).2, s.2)
  | .stopEv => (stopShard s.1, s.2)

/-- Run a sequence of atomic shard operations. -/
def runEvents (lifetime : Int) (s : ShardState × Option Worker) :
    List PoolEvent → ShardState × Option Worker
  | [] => s
  | e :: es => runEvents lifetime (stepEvent lifetime s e) es

/-- The timestamps of the release events of a history, in order. -/
def releaseTimes : List PoolEvent → List Int
  | [] => []
  | .release _ t :: es => t :: releaseTimes es
  | _ :: es => releaseTimes es

/-- The `lastUsed` stamps of a shard's idle list, head to tail. -/
def stamps (shard : ShardState) : List Int :=
  shard.idleWorkerList.map Worker.lastUsed

/-! ## Theorems -/

/-- Helper: `poolShard.getWorker` returns a worker on every path — the
source never checks `shard.stopped` and the spawn fallback is
unconditional, so the Go named return is never nil. -/
theorem getWorker_worker_isSome (shard : ShardState) (g : Option Worker) (fid : Nat) :
    (getWorker shard g fid).worker.isSome = true := by
  unfold getWorker
  cases h1 : shard.idleWorker1 with
  | some w => rfl
  | none =>
    cases h2 : g with
    | some w => rfl
    | none =>
      rcases h3 : getWorkerLocked shard with ⟨o, shard'⟩
      cases o <;> rfl

/-- Helper: a Go `int` in `[-2^63, 2^63)` is unchanged by the
two's-complement wrap. -/
theorem wrap64_eq_self {z : Int} (h1 : -(2 ^ 63) ≤ z) (h2 : z < 2 ^ 63) :
    wrap64 z = z := by
  unfold wrap64
  have h : (z + 2 ^ 63) % 2 ^ 64 = z + 2 ^ 63 :=
    Int.emod_eq_of_lt (by omega) (by omega)
  omega

/-- C7 counterexample: `Start` is not idempotent as claimed.  On the
concrete pool `newWorkerPool 2`, calling `Start` twice does not leave the
pool in the same state as calling it once: `go wp.cleanup()` sits outside
the `if !wp.started` guard (ultrapool.go line 126), so the second call
spawns a second reaper background task. -/
theorem startPool_not_idempotent :
    startPool (startPool (newWorkerPool 2)) ≠ startPool (newWorkerPool 2) := by
  decide

/-- C7 (amended): `Start` is idempotent on the pool state proper — the
shard array, `started` flag and all other fields are the same after two
calls as after one — but each call additionally spawns one reaper
background task, so after two calls two reaper tasks exist instead of
one. -/
theorem startPool_core_idempotent (wp : PoolState) :
    poolCore (startPool (startPool wp)) = poolCore (startPool wp)
    ∧ (startPool (startPool wp)).cleanupCount = wp.cleanupCount + 2 := by
  unfold startPool poolCore
  by_cases h : wp.started = false <;> simp [h]

/-- C8: `SetNumShards` clamps its argument to `[1, 128]`: any `n ≤ 1`
yields 1 shard, any `n ≥ 128` yields 128, and any `n` strictly in
between is kept as is (ultrapool.go lines 88-98). -/
theorem setNumShards_clamps (wp : PoolState) (n : Int) :
    ((n ≤ 1 → (setNumShards wp n).numShards = 1)
    ∧ (128 ≤ n → (setNumShards wp n).numShards = 128))
    ∧ (1 < n → n < 128 → (setNumShards wp n).numShards = n) := by
  unfold setNumShards maxShards
  refine ⟨⟨fun h => ?_, fun h => ?_⟩, fun h1 h2 => ?_⟩ <;>
    simp only [] <;> split_ifs <;> omega

/-- C8 witness: the boundary instances from the spec —
`set_shards 0` yields 1, `set_shards 10000` yields 128, and
`set_shards 7` yields 7 on a concrete pool. -/
theorem setNumShards_clamps_witness :
    (setNumShards (newWorkerPool 4) 0).numShards = 1
    ∧ (setNumShards (newWorkerPool 4) 10000).numShards = 128
    ∧ (setNumShards (newWorkerPool 4) 7).numShards = 7 :=
  ⟨(setNumShards_clamps (newWorkerPool 4) 0).1.1 (by decide),
   (setNumShards_clamps (newWorkerPool 4) 10000).1.2 (by decide),
   (setNumShards_clamps (newWorkerPool 4) 7).2 (by decide) (by decide)⟩

/-- C5 counterexample: `setWorkerIdle` on a stopped shard does not
always return `false`.  On a stopped shard whose `idleWorker1` fast slot
is empty, the CAS on the fast slot succeeds and the function returns
`true` without ever reading `stopped` (ultrapool.go lines 244-246). -/
theorem setWorkerIdle_true_on_stopped_shard :
    (setWorkerIdle
        { idleWorker1 := none, idleWorker2 := none
          idleWorkerList := [], stopped := true }
        none (freshWorker 0) 5).ret = true := by
  decide

/-- C5 (amended): `setWorkerIdle` returns `false` iff the shard is
stopped AND both the shard fast slot and the pool-wide fast slot are
already occupied (only the locked path checks `stopped`); in particular
on a non-stopped shard it always returns `true`, and a `false` return
does imply the shard is stopped. -/
theorem setWorkerIdle_ret_iff (shard : ShardState) (g : Option Worker)
    (w : Worker) (now : Int) :
    ((setWorkerIdle shard g w now).ret = false
      ↔ shard.stopped = true ∧ shard.idleWorker1 ≠ none ∧ g ≠ none)
    ∧ (shard.stopped = false → (setWorkerIdle shard g w now).ret = true) := by
  unfold setWorkerIdle
  split_ifs with h1 h2 h3 h4 <;> simp_all

/-- C5 witness: on a concrete stopped shard with both fast slots
occupied, `setWorkerIdle` does return `false`. -/
theorem setWorkerIdle_ret_iff_witness :
    (setWorkerIdle
        { idleWorker1 := some (freshWorker 1), idleWorker2 := none
          idleWorkerList := [], stopped := true }
        (some (freshWorker 2)) (freshWorker 3) 5).ret = false :=
  (setWorkerIdle_ret_iff
      { idleWorker1 := some (freshWorker 1), idleWorker2 := none
        idleWorkerList := [], stopped := true }
      (some (freshWorker 2)) (freshWorker 3) 5).1.mpr
    ⟨rfl, by decide, by decide⟩

/-- C6: the locked path of `getWorker`.  If `idleWorker2` (fast_b) is
non-null it is cleared and returned with the list untouched; otherwise
with at least two idle workers the tail is returned, the new tail moves
into `idleWorker2`, and exactly two workers leave the list; with exactly
one idle worker that worker is returned and `idleWorker2` stays empty
(ultrapool.go lines 187-210). -/
theorem getWorkerLocked_spec (shard : ShardState) :
    (∀ w, shard.idleWorker2 = some w →
        getWorkerLocked shard = (some w, { shard with idleWorker2 := none }))
    ∧ (shard.idleWorker2 = none → 2 ≤ shard.idleWorkerList.length →
        (getWorkerLocked shard).1 = shard.idleWorkerList.getLast?
        ∧ (getWorkerLocked shard).2.idleWorker2
            = shard.idleWorkerList.dropLast.getLast?
        ∧ (getWorkerLocked shard).2.idleWorkerList
            = shard.idleWorkerList.dropLast.dropLast
        ∧ (getWorkerLocked shard).2.idleWorkerList.length + 2
            = shard.idleWorkerList.length)
    ∧ (shard.idleWorker2 = none → shard.idleWorkerList.length = 1 →
        (getWorkerLocked shard).1 = shard.idleWorkerList.getLast?
        ∧ (getWorkerLocked shard).2.idleWorker2 = none
        ∧ (getWorkerLocked shard).2.idleWorkerList = []) := by
  refine ⟨fun w hw => ?_, fun hb hlen => ?_, fun hb hlen => ?_⟩
  · simp [getWorkerLocked, hw]
  · have h1 : shard.idleWorkerList.length > 1 := by omega
    refine ⟨?_, ?_, ?_, ?_⟩
    · simp [getWorkerLocked, hb, if_pos h1, List.getLast?_eq_getElem?]
    · simp only [getWorkerLocked, hb, if_pos h1]
      rw [List.dropLast_eq_take, List.getLast?_eq_getElem?,
        List.getElem?_take_of_lt (by simp; omega)]
      congr 1
      simp
      omega
    · simp only [getWorkerLocked, hb, if_pos h1]
      rw [List.dropLast_eq_take, List.dropLast_eq_take, List.take_take]
      simp
      omega
    · simp only [getWorkerLocked, hb, if_pos h1]
      simp
      omega
  · have h1 : ¬ shard.idleWorkerList.length > 1 := by omega
    have h2 : shard.idleWorkerList.length > 0 := by omega
    refine ⟨?_, ?_, ?_⟩
    · simp [getWorkerLocked, hb, if_neg h1, if_pos h2, List.getLast?_eq_getElem?]
    · simp [getWorkerLocked, hb, if_neg h1, if_pos h2]
    · simp [getWorkerLocked, hb, if_neg h1, if_pos h2, hlen]

/-- C6 witness: on a shard with empty `idleWorker2` and idle list
`[w1, w2, w3]`, the locked path returns `w3`, parks `w2` in
`idleWorker2` and leaves `[w1]`. -/
theorem getWorkerLocked_spec_witness :
    (getWorkerLocked
        { idleWorker1 := none, idleWorker2 := none
          idleWorkerList := [freshWorker 1, freshWorker 2, freshWorker 3]
          stopped := false }).1 = some (freshWorker 3)
    ∧ (getWorkerLocked
        { idleWorker1 := none, idleWorker2 := none
          idleWorkerList := [freshWorker 1, freshWorker 2, freshWorker 3]
          stopped := false }).2.idleWorker2 = some (freshWorker 2)
    ∧ (getWorkerLocked
        { idleWorker1 := none, idleWorker2 := none
          idleWorkerList := [freshWorker 1, freshWorker 2, freshWorker 3]
          stopped := false }).2.idleWorkerList = [freshWorker 1] := by
  have h := (getWorkerLocked_spec
      { idleWorker1 := none, idleWorker2 := none
        idleWorkerList := [freshWorker 1, freshWorker 2, freshWorker 3]
        stopped := false }).2.1 rfl (by decide)
  exact ⟨h.1.trans (by decide), h.2.1.trans (by decide), h.2.2.1.trans (by decide)⟩

/-- C1 (code bug): contrary to the claim — and to the dead
`worker == nil` check with its "worker pool has already been stopped"
error in `AddTask` (ultrapool.go lines 167-169) — `getWorker` never
consults `shard.stopped` and returns a worker on every path, stopped
shards included, so `AddTask` can never fail with the `stopped` error.
In particular, evaluated after `Stop`, `AddTask` still succeeds (see the
concrete conjunct on a stopped pool). -/
theorem getWorker_ignores_stopped :
    (∀ (shard : ShardState) (g : Option Worker) (fid : Nat),
        (getWorker shard g fid).worker.isSome = true)
    ∧ (∀ (wp : PoolState) (t : GoTask) (fid : Nat),
        addTask wp t fid ≠ AddTaskResult.errStopped)
    ∧ (∃ wp' w, addTask (stopPool (startPool (newWorkerPool 1))) (some 5) 99
        = AddTaskResult.ok wp' (some 5) w) := by
  refine ⟨getWorker_worker_isSome, fun wp t fid h => ?_, ?_⟩
  · unfold addTask at h
    split at h
    · exact absurd h (by simp)
    · dsimp only at h
      split at h
      · split at h
        · next heq =>
          have hs := getWorker_worker_isSome
            (wp.shards.get ⟨(Int.tmod (wrap64 (wp.acquireCounter + 1)) wp.numShards).toNat, by
              omega⟩) wp.idleWorker1 fid
          rw [heq] at hs
          simp at hs
        · exact absurd h (by simp)
      · exact absurd h (by simp)
  · exact ⟨{ idleWorkerLifetime := defaultIdleWorkerLifetime, numShards := 1
             shards := [{ idleWorker1 := none, idleWorker2 := none
                          idleWorkerList := [], stopped := true }]
             acquireCounter := 0, started := true, stopped := true
             idleWorker1 := none, cleanupCount := 1 },
           freshWorker 99, by decide⟩

/-- Helper: on a started pool whose counter has not overflowed and whose
shard array has `numShards ≥ 1` entries, `AddTask` succeeds and sends the
submitted task itself on the acquired worker's channel. -/
theorem addTask_ok_aux (wp : PoolState) (t : GoTask) (fid : Nat)
    (hst : wp.started = true)
    (hc1 : -1 ≤ wp.acquireCounter) (hc2 : wp.acquireCounter + 1 < 2 ^ 63)
    (hn : 1 ≤ wp.numShards) (hlen : wp.shards.length = wp.numShards.toNat) :
    ∃ wp' w, addTask wp t fid = AddTaskResult.ok wp' t w := by
  unfold addTask
  rw [hst]
  simp only [Bool.true_eq_false, if_false]
  have hw : wrap64 (wp.acquireCounter + 1) = wp.acquireCounter + 1 :=
    wrap64_eq_self (by omega) hc2
  have hc0 : 0 ≤ wrap64 (wp.acquireCounter + 1) := by omega
  have hlt : Int.tmod (wrap64 (wp.acquireCounter + 1)) wp.numShards < wp.numShards :=
    Int.tmod_lt_of_pos _ (by omega)
  have hnn : 0 ≤ Int.tmod (wrap64 (wp.acquireCounter + 1)) wp.numShards :=
    Int.tmod_nonneg _ hc0
  have hcond : 0 ≤ Int.tmod (wrap64 (wp.acquireCounter + 1)) wp.numShards
      ∧ (Int.tmod (wrap64 (wp.acquireCounter + 1)) wp.numShards).toNat
          < wp.shards.length := by
    refine ⟨hnn, ?_⟩
    rw [hlen]
    exact (Int.toNat_lt_toNat (by omega)).mpr hlt
  rw [dif_pos hcond]
  have hs := getWorker_worker_isSome
    (wp.shards.get ⟨(Int.tmod (wrap64 (wp.acquireCounter + 1)) wp.numShards).toNat,
      hcond.2⟩) wp.idleWorker1 fid
  split
  · next heq =>
    rw [heq] at hs
    simp at hs
  · exact ⟨_, _, rfl⟩

/-- C10 counterexample: the shard index in `AddTask` is not always
in-bounds.  `acquireCounter` is a Go `int`; on the pool state reached
after `2^63` successful submissions (counter `2^63 - 1`) with 3 shards,
the increment wraps to `-2^63` and Go's truncated `%` yields index `-2`,
so `wp.shards[idx]` panics out of bounds. -/
theorem addTask_counter_overflow_oob :
    addTask
      { idleWorkerLifetime := 1000000000, numShards := 3
        shards := [initShard, initShard, initShard]
        acquireCounter := 2 ^ 63 - 1
        started := true, stopped := false
        idleWorker1 := none, cleanupCount := 1 }
      (some 1) 0 = AddTaskResult.panicOOB (-2) := by
  decide

/-- C10 (amended): as long as the round-robin counter has not overflowed
the 64-bit `int` (i.e. for the first `2^63` submissions), the shard index
`acquireCounter % numShards` computed by `AddTask` is in-bounds and the
indexing cannot panic; and the shard array built by `Start` on a fresh
pool has exactly `numShards` entries. -/
theorem addTask_idx_in_bounds (wp : PoolState) (t : GoTask) (fid : Nat)
    (hst : wp.started = true)
    (hc1 : -1 ≤ wp.acquireCounter) (hc2 : wp.acquireCounter + 1 < 2 ^ 63)
    (hn : 1 ≤ wp.numShards) (hlen : wp.shards.length = wp.numShards.toNat) :
    (∀ i, addTask wp t fid ≠ AddTaskResult.panicOOB i)
    ∧ (∀ wp0 : PoolState, wp0.started = false → wp0.shards = [] →
        (startPool wp0).shards.length = wp0.numShards.toNat) := by
  constructor
  · intro i h
    obtain ⟨wp', w, hok⟩ := addTask_ok_aux wp t fid hst hc1 hc2 hn hlen
    rw [hok] at h
    exact absurd h (by simp)
  · intro wp0 h0 hsh
    unfold startPool
    simp [h0, hsh]

/-- C10 witness: on the concrete freshly started two-shard pool, the
first submission does not panic, and `Start` on `newWorkerPool 2` builds
exactly 2 shards. -/
theorem addTask_idx_in_bounds_witness :
    (addTask (startPool (newWorkerPool 2)) (some 5) 3 ≠ AddTaskResult.panicOOB 0)
    ∧ (startPool (newWorkerPool 2)).shards.length
        = (newWorkerPool 2).numShards.toNat := by
  have h := addTask_idx_in_bounds (startPool (newWorkerPool 2)) (some 5) 3
    (by decide) (by decide) (by decide) (by decide) (by decide)
  exact ⟨h.1 0, h.2 (newWorkerPool 2) (by decide) (by decide)⟩

/-- C2 (code bug): the reaper does not retire exactly the stale prefix.
The confirmation loop (ultrapool.go line 299) tests
`idleWorkerList[s].lastUsed` — the fixed index `s`, a typo for `j` — so
it never breaks once the worker at `s` is stale.  Concretely, with
`idle_lifetime = 1000` at `now = 2000` and idle list
`[w0 (lastUsed 0, stale), w1 (lastUsed 2000, fresh)]`, the pass retires
BOTH workers even though `now - w1.lastUsed = 0 < 1000`: the scan does
not stop at the first fresh worker. -/
theorem cleanup_retires_fresh_worker :
    (cleanupShardPass 2000 1000
        { idleWorker1 := none, idleWorker2 := none
          idleWorkerList :=
            [{ id := 0, lastUsed := 0, isDeleted := false, chanClosed := false },
             { id := 1, lastUsed := 2000, isDeleted := false, chanClosed := false }]
          stopped := false }).1
      = [{ id := 0, lastUsed := 0, isDeleted := false, chanClosed := false },
         { id := 1, lastUsed := 2000, isDeleted := false, chanClosed := false }]
    ∧ (2000 : Int) - 2000 < 1000
    ∧ (cleanupShardPass 2000 1000
        { idleWorker1 := none, idleWorker2 := none
          idleWorkerList :=
            [{ id := 0, lastUsed := 0, isDeleted := false, chanClosed := false },
             { id := 1, lastUsed := 2000, isDeleted := false, chanClosed := false }]
          stopped := false }).2.idleWorkerList = [] := by
  refine ⟨by decide, by decide, by decide⟩

/-- C3 counterexample: a successfully submitted task is not always
invoked by the handler.  `Task` is `interface{}` and the shutdown
sentinel is the Go `nil`; `AddTask(nil)` on a started pool returns
success, yet the worker loop (ultrapool.go lines 225-228) breaks on a
received `nil` before calling the handler, so the submitted value is
silently dropped. -/
theorem addTask_nil_dropped :
    addTask (startPool (newWorkerPool 1)) none 7
      = AddTaskResult.ok
          { idleWorkerLifetime := defaultIdleWorkerLifetime, numShards := 1
            shards := [initShard], acquireCounter := 0
            started := true, stopped := false
            idleWorker1 := none, cleanupCount := 1 }
          none (freshWorker 7)
    ∧ runWorker [none] = [] := by
  refine ⟨by decide, rfl⟩

/-- C3 (amended): every successfully submitted NON-nil task is invoked
by the handler exactly once: on a live pool `AddTask (some v)` succeeds
and sends `some v` itself to the acquired worker, and the worker loop
invokes the handler exactly once for each non-sentinel value it receives
before the first sentinel — in particular, once for the delivered
occurrence of `some v`.  A submitted `nil` is instead interpreted as the
shutdown sentinel and dropped. -/
theorem addTask_nonnil_handled_once (wp : PoolState) (v : Nat) (fid : Nat)
    (hst : wp.started = true)
    (hc1 : -1 ≤ wp.acquireCounter) (hc2 : wp.acquireCounter + 1 < 2 ^ 63)
    (hn : 1 ≤ wp.numShards) (hlen : wp.shards.length = wp.numShards.toNat) :
    (∃ wp' w, addTask wp (some v) fid = AddTaskResult.ok wp' (some v) w)
    ∧ ∀ (pre post : List GoTask), none ∉ pre →
        runWorker (pre ++ some v :: post) = pre.filterMap id ++ v :: runWorker post := by
  refine ⟨addTask_ok_aux wp (some v) fid hst hc1 hc2 hn hlen, fun pre post hpre => ?_⟩
  induction pre with
  | nil => rfl
  | cons x xs ih =>
    cases x with
    | none => exact absurd (List.mem_cons_self none xs) hpre
    | some u =>
      have hx : none ∉ xs := fun hc => hpre (List.mem_cons_of_mem _ hc)
      simp only [List.cons_append, runWorker, List.filterMap_cons, id_eq]
      exact congrArg (u :: ·) (ih hx)

/-- C3 witness: on the concrete started pool `startPool (newWorkerPool 2)`
the submission of `some 5` succeeds delivering `some 5`, and a worker
receiving `[some 1, some 42, none, some 9]` invokes the handler exactly
on `1` and `42` — once each, stopping at the sentinel. -/
theorem addTask_nonnil_handled_once_witness :
    (∃ wp' w, addTask (startPool (newWorkerPool 2)) (some 5) 3
        = AddTaskResult.ok wp' (some 5) w)
    ∧ runWorker [some 1, some 42, none, some 9] = [1, 42] := by
  have h := addTask_nonnil_handled_once (startPool (newWorkerPool 2)) 5 3
    (by decide) (by decide) (by decide) (by decide) (by decide)
  refine ⟨h.1, ?_⟩
  have h42 := addTask_nonnil_handled_once (startPool (newWorkerPool 2)) 42 3
    (by decide) (by decide) (by decide) (by decide) (by decide)
  have := h42.2 [some 1] [none, some 9] (by decide)
  simpa using this

/-- C4 counterexample: `Stop` does not mark/close the worker held in the
`fast_b` slot.  On a started pool whose single shard holds a worker in
`idleWorker2`, `Stop` sets the shard `stopped` flag but leaves the
`fast_b` worker exactly as it was — not `deleted`, channel not closed —
because the drain loop (ultrapool.go lines 144-149) walks only
`idleWorkerList`. -/
theorem stop_skips_fastB :
    (stopPool
        { idleWorkerLifetime := 1000000000, numShards := 1
          shards := [{ idleWorker1 := none
                       idleWorker2 := some (freshWorker 0)
                       idleWorkerList := [], stopped := false }]
          acquireCounter := -1, started := true, stopped := false
          idleWorker1 := none, cleanupCount := 1 }).shards
      = [{ idleWorker1 := none, idleWorker2 := some (freshWorker 0)
           idleWorkerList := [], stopped := true }]
    ∧ (freshWorker 0).isDeleted = false
    ∧ (freshWorker 0).chanClosed = false := by
  refine ⟨by decide, rfl, rfl⟩

/-- C4 (amended): on a started, not-yet-stopped pool, `Stop` sets every
shard's `stopped` flag under the shard lock and, for every worker in
that shard's `idle_list`, marks it `deleted` (closing its channel if it
was not already deleted); the `fast_b` slot (`idleWorker2`) — like
`fast_a` and the pool-wide slot — is left untouched, its worker neither
marked nor closed. -/
theorem stopPool_spec (wp : PoolState)
    (hst : wp.started = true) (hns : wp.stopped = false)
    (i : Nat) (hi : i < wp.shards.length) :
    (stopPool wp).stopped = true
    ∧ ∃ hi2 : i < (stopPool wp).shards.length,
        ((stopPool wp).shards.get ⟨i, hi2⟩).stopped = true
        ∧ ((stopPool wp).shards.get ⟨i, hi2⟩).idleWorker1
            = (wp.shards.get ⟨i, hi⟩).idleWorker1
        ∧ ((stopPool wp).shards.get ⟨i, hi2⟩).idleWorker2
            = (wp.shards.get ⟨i, hi⟩).idleWorker2
        ∧ (∀ w ∈ ((stopPool wp).shards.get ⟨i, hi2⟩).idleWorkerList,
            w.isDeleted = true)
        ∧ (∀ w ∈ (wp.shards.get ⟨i, hi⟩).idleWorkerList, w.isDeleted = false →
            { w with isDeleted := true, chanClosed := true }
              ∈ ((stopPool wp).shards.get ⟨i, hi2⟩).idleWorkerList) := by
  have hshards : (stopPool wp).shards = wp.shards.map stopShard := by
    unfold stopPool
    rw [hst, hns]
    simp
  have hstopped : (stopPool wp).stopped = true := by
    unfold stopPool
    rw [hst, hns]
    simp
  have hi2 : i < (stopPool wp).shards.length := by
    rw [hshards]
    simpa using hi
  refine ⟨hstopped, hi2, ?_⟩
  have hget : (stopPool wp).shards.get ⟨i, hi2⟩
      = stopShard (wp.shards.get ⟨i, hi⟩) := by
    simp only [List.get_eq_getElem]
    rw [List.getElem_of_eq hshards hi2]
    simp
  rw [hget]
  refine ⟨rfl, rfl, rfl, fun w hw => ?_, fun w hw hdel => ?_⟩
  · obtain ⟨w0, _, hw0⟩ := List.mem_map.mp hw
    rw [← hw0]
    unfold markDeleted
    split <;> simp_all
  · have : markDeleted w ∈ (wp.shards.get ⟨i, hi⟩).idleWorkerList.map markDeleted :=
      List.mem_map_of_mem markDeleted hw
    unfold markDeleted at this
    rw [if_pos hdel] at this
    exact this

/-- C4 witness: instantiating the amended statement on a concrete
two-worker pool: after `Stop` the pool's `stopped` flag is set. -/
theorem stopPool_spec_witness :
    (stopPool
        { idleWorkerLifetime := 1000000000, numShards := 1
          shards := [{ idleWorker1 := none, idleWorker2 := none
                       idleWorkerList := [freshWorker 4], stopped := false }]
          acquireCounter := -1, started := true, stopped := false
          idleWorker1 := none, cleanupCount := 1 }).stopped = true :=
  (stopPool_spec
      { idleWorkerLifetime := 1000000000, numShards := 1
        shards := [{ idleWorker1 := none, idleWorker2 := none
                     idleWorkerList := [freshWorker 4], stopped := false }]
        acquireCounter := -1, started := true, stopped := false
        idleWorker1 := none, cleanupCount := 1 }
      rfl rfl 0 (by decide)).1

/-- Helper: a release (`setWorkerIdle` at time `t`) leaves the idle
list's stamps unchanged (fast-slot or stopped paths) or appends `t`
(locked append path). -/
theorem stamps_setWorkerIdle (shard : ShardState) (g : Option Worker)
    (w : Worker) (t : Int) :
    stamps (setWorkerIdle shard g w t).shard = stamps shard
    ∨ stamps (setWorkerIdle shard g w t).shard = stamps shard ++ [t] := by
  unfold setWorkerIdle stamps
  split_ifs <;> simp

/-- Helper: the locked acquire path removes workers only from the tail —
the resulting idle list is a `take` of the original. -/
theorem idleList_getWorkerLocked (shard : ShardState) :
    ∃ k, (getWorkerLocked shard).2.idleWorkerList = shard.idleWorkerList.take k := by
  unfold getWorkerLocked
  cases h : shard.idleWorker2 with
  | some w => exact ⟨shard.idleWorkerList.length, by simp⟩
  | none =>
    dsimp only
    split_ifs with h1 h2
    · exact ⟨shard.idleWorkerList.length - 2, rfl⟩
    · exact ⟨shard.idleWorkerList.length - 1, rfl⟩
    · exact ⟨shard.idleWorkerList.length, by simp⟩

/-- Helper: any acquire (`getWorker`) leaves the idle list's stamps a
`take` of the original stamps. -/
theorem stamps_getWorker (shard : ShardState) (g : Option Worker) (fid : Nat) :
    ∃ k, stamps (getWorker shard g fid).shard = (stamps shard).take k := by
  unfold getWorker
  cases h1 : shard.idleWorker1 with
  | some w => exact ⟨(stamps shard).length, by simp [stamps]⟩
  | none =>
    cases h2 : g with
    | some w => exact ⟨(stamps shard).length, by simp [stamps]⟩
    | none =>
      obtain ⟨k, hk⟩ := idleList_getWorkerLocked shard
      rcases h3 : getWorkerLocked shard with ⟨o, shard'⟩
      rw [h3] at hk
      have hk2 : shard'.idleWorkerList = List.take k shard.idleWorkerList := hk
      cases o with
      | some w =>
        refine ⟨k, ?_⟩
        unfold stamps
        rw [hk2, List.map_take]
      | none =>
        refine ⟨k, ?_⟩
        unfold stamps
        rw [hk2, List.map_take]

/-- Helper: a reaper pass removes only a prefix — the remaining idle
list is a `drop` of the original. -/
theorem cleanupShardPass_drop (now lifetime : Int) (shard : ShardState) :
    ∃ k, (cleanupShardPass now lifetime shard).2.idleWorkerList
      = shard.idleWorkerList.drop k := by
  unfold cleanupShardPass
  dsimp only
  split_ifs <;> first
  | exact ⟨0, rfl⟩
  | exact ⟨_, rfl⟩

/-- Helper: `Stop`'s shard drain does not change any `lastUsed` stamp
(`markDeleted` only touches `isDeleted`/`chanClosed`). -/
theorem stamps_stopShard (shard : ShardState) :
    stamps (stopShard shard) = stamps shard := by
  unfold stamps stopShard
  simp only [List.map_map]
  congr 1
  funext w
  simp [Function.comp, markDeleted, apply_ite]

/-- Helper: along any history of atomic shard operations whose release
times are non-decreasing and dominate the stamps already in the list,
the idle list's `lastUsed` stamps stay sorted. -/
theorem runEvents_stamps_sorted (lifetime : Int) (es : List PoolEvent) :
    ∀ (shard : ShardState) (g : Option Worker),
      List.Pairwise (· ≤ ·) (stamps shard) →
      (∀ x ∈ stamps shard, ∀ t ∈ releaseTimes es, x ≤ t) →
      List.Pairwise (· ≤ ·) (releaseTimes es) →
      List.Pairwise (· ≤ ·) (stamps (runEvents lifetime (shard, g) es).1) := by
  induction es with
  | nil => exact fun shard g hs _ _ => hs
  | cons e es ih =>
    intro shard g hs hb hm
    show List.Pairwise (· ≤ ·)
      (stamps (runEvents lifetime (stepEvent lifetime (shard, g) e) es).1)
    cases e with
    | release w t =>
      have hmt : ∀ t' ∈ releaseTimes es, t ≤ t' := (List.pairwise_cons.mp hm).1
      have hm' : List.Pairwise (· ≤ ·) (releaseTimes es) := (List.pairwise_cons.mp hm).2
      have hbt : ∀ x ∈ stamps shard, x ≤ t := fun x hx =>
        hb x hx t (List.mem_cons_self _ _)
      have hb' : ∀ x ∈ stamps shard, ∀ t' ∈ releaseTimes es, x ≤ t' :=
        fun x hx t' ht' => hb x hx t' (List.mem_cons_of_mem _ ht')
      rcases stamps_setWorkerIdle shard g w t with hcase | hcase
      · exact ih _ _ (hcase ▸ hs) (fun x hx => hb' x (hcase ▸ hx)) hm'
      · refine ih _ _ ?_ ?_ hm'
        · rw [hcase]
          refine List.pairwise_append.mpr ⟨hs, List.pairwise_singleton _ _, ?_⟩
          intro a ha b hbmem
          rw [List.mem_singleton] at hbmem
          subst hbmem
          exact hbt a ha
        · intro x hx t' ht'
          rw [hcase] at hx
          rcases List.mem_append.mp hx with hx1 | hx2
          · exact hb' x hx1 t' ht'
          · rw [List.mem_singleton] at hx2
            subst hx2
            exact hmt t' ht'
    | acquireEv fid =>
      obtain ⟨k, hk⟩ := stamps_getWorker shard g fid
      refine ih _ _ ?_ ?_ hm
      · rw [hk]
        exact List.Pairwise.sublist (List.take_sublist _ _) hs
      · intro x hx t' ht'
        rw [hk] at hx
        exact hb x (List.Sublist.mem hx (List.take_sublist _ _)) t' ht'
    | reapEv now =>
      obtain ⟨k, hk⟩ := cleanupShardPass_drop now lifetime shard
      have hk' : stamps (cleanupShardPass now lifetime shard).2
          = (stamps shard).drop k := by
        unfold stamps
        rw [hk, List.map_drop]
      refine ih _ _ ?_ ?_ hm
      · rw [hk']
        exact List.Pairwise.sublist (List.drop_sublist _ _) hs
      · intro x hx t' ht'
        rw [hk'] at hx
        exact hb x (List.Sublist.mem hx (List.drop_sublist _ _)) t' ht'
    | stopEv =>
      refine ih _ _ ?_ ?_ hm
      · rw [stamps_stopShard]
        exact hs
      · intro x hx t' ht'
        rw [stamps_stopShard] at hx
        exact hb x hx t' ht'

/-- C9: along every history of atomic shard operations (releases,
acquires, reaper passes, stop) starting from a fresh shard, provided
the release timestamps are non-decreasing (a monotone clock: each
release stamps `now()` and then appends), the `lastUsed` stamps of the
shard's idle list are non-decreasing from head to tail at every
quiescent observation — so a single prefix cut by the reaper covers all
stale workers. -/
theorem idleList_lastUsed_sorted (lifetime : Int) (es : List PoolEvent)
    (hmono : List.Pairwise (· ≤ ·) (releaseTimes es)) :
    List.Pairwise (· ≤ ·) (stamps (runEvents lifetime (initShard, none) es).1) :=
  runEvents_stamps_sorted lifetime es initShard none
    (by simp [stamps, initShard]) (by simp [stamps, initShard]) hmono

/-- C9 witness: a concrete history of five releases at increasing times
(filling `fast_a`, the pool-wide slot and `fast_b` before the list)
leaves a sorted idle list. -/
theorem idleList_lastUsed_sorted_witness :
    List.Pairwise (· ≤ ·)
      (stamps (runEvents 1000 (initShard, none)
        [PoolEvent.release (freshWorker 1) 1, PoolEvent.release (freshWorker 2) 2,
         PoolEvent.release (freshWorker 3) 3, PoolEvent.release (freshWorker 4) 4,
         PoolEvent.release (freshWorker 5) 5]).1) :=
  idleList_lastUsed_sorted 1000 _ (by decide)

end Ultrapool
